import Mathlib

/-!
Verification development for the SEC 8-K extraction pipeline.

The definitions below are shallow embeddings of the JavaScript source:
  * `chunkText`            — src/Backend/report.js, `chunkText` (lines 423-434)
  * `findEvidence`         — src/Backend/extract-manual.js, `findEvidence` (lines 96-172)
  * `parseMoneyToUSD`      — src/Backend/extract-manual.js, `parseMoneyToUSD` (lines 79-90)
  * partnership / deal classification and the cross-field validation fragments of
    `run` in src/Backend/extract-manual.js, and the per-field evidence check of the
    validator script (`checkField`).

Texts are modelled as `List Char`; JavaScript string slicing `s.slice(a, b)`
becomes `(l.drop a).take (b - a)` and nullable strings become `Option`.
Machine numbers are modelled with `Nat`/`Int` (all monetary values in the code
are non-negative; the arithmetic involved is exact at every value the pipeline
produces).  The `while` loop of `chunkText` is modelled with explicit fuel and
an `Option` result so that non-termination of the source loop is observable as
`none` for every fuel value.
-/

/-- A chunk as built by `chunkText` in report.js: `{ start, end, text: slice }`.
The JS field `end` is a Lean keyword, so it is named `stop` here. -/
structure Chunk where
  start : Nat
  stop : Nat
  text : List Char
  deriving Repr, DecidableEq

/-- One iteration structure of the `while (start < text.length)` loop of
`chunkText` (report.js 423-434), with explicit fuel.  `none` means the loop
did not finish within `fuel` iterations; the JS loop body is translated
verbatim: `end = min(start + target, len)`, push `{start, end, slice}`, exit
when `end = len`, else `start += target - overlap`. -/
def chunkTextAux (text : List Char) (target overlap : Nat) : Nat → Nat → Option (List Chunk)
  | 0, _ => none
  | fuel + 1, start =>
    if start < text.length then
      if min (start + target) text.length = text.length then
        some [⟨start, min (start + target) text.length,
          (text.drop start).take (min (start + target) text.length - start)⟩]
      else
        (chunkTextAux text target overlap fuel (start + (target - overlap))).map
          (⟨start, min (start + target) text.length,
            (text.drop start).take (min (start + target) text.length - start)⟩ :: ·)
    else some []

/-- `chunkText` from report.js.  `text.length + 1` iterations always suffice
when `overlap < target` (proved in `chunkTextAux_total`). -/
def chunkText (text : List Char) (target overlap : Nat) : List Chunk :=
  (chunkTextAux text target overlap (text.length + 1) 0).getD []

lemma chunkTextAux_total (text : List Char) (target overlap : Nat)
    (h1 : overlap < target) :
    ∀ fuel start, text.length - start < fuel →
      (chunkTextAux text target overlap fuel start).isSome := by
  intro fuel
  induction fuel with
  | zero => intro start h; omega
  | succ n ih =>
    intro start h
    rw [chunkTextAux]
    by_cases hs : start < text.length
    · rw [if_pos hs]
      by_cases he : min (start + target) text.length = text.length
      · rw [if_pos he]; rfl
      · rw [if_neg he]
        have hrec := ih (start + (target - overlap)) (by omega)
        rcases Option.isSome_iff_exists.mp hrec with ⟨cs, hcs⟩
        simp [hcs]
    · rw [if_neg hs]; rfl

lemma chunkText_eq_some (text : List Char) (target overlap : Nat)
    (h1 : overlap < target) :
    chunkTextAux text target overlap (text.length + 1) 0 =
      some (chunkText text target overlap) := by
  have := chunkTextAux_total text target overlap h1 (text.length + 1) 0 (by omega)
  rcases Option.isSome_iff_exists.mp this with ⟨cs, hcs⟩
  simp [chunkText, hcs]

/-- Shape of every emitted chunk: its `stop` is `min (start + target) len`,
its text is the corresponding slice, and it is a non-empty span inside the text. -/
lemma chunkTextAux_shape (text : List Char) (target overlap : Nat)
    (h0 : 0 < target) :
    ∀ fuel start cs, chunkTextAux text target overlap fuel start = some cs →
      ∀ c ∈ cs, c.stop = min (c.start + target) text.length ∧
        c.text = (text.drop c.start).take (c.stop - c.start) ∧
        c.start < c.stop ∧ c.stop ≤ text.length := by
  intro fuel
  induction fuel with
  | zero => intro start cs h; simp [chunkTextAux] at h
  | succ n ih =>
    intro start cs h
    rw [chunkTextAux] at h
    by_cases hs : start < text.length
    · rw [if_pos hs] at h
      by_cases he : min (start + target) text.length = text.length
      · rw [if_pos he, Option.some_inj] at h
        subst h
        intro c hc
        simp only [List.mem_singleton] at hc
        subst hc
        refine ⟨rfl, rfl, ?_, ?_⟩
        · show start < min (start + target) text.length
          omega
        · show min (start + target) text.length ≤ text.length
          omega
      · rw [if_neg he, Option.map_eq_some'] at h
        rcases h with ⟨cs', hcs', rfl⟩
        intro c hc
        rcases List.mem_cons.mp hc with rfl | hmem
        · refine ⟨rfl, rfl, ?_, ?_⟩
          · show start < min (start + target) text.length
            omega
          · show min (start + target) text.length ≤ text.length
            omega
        · exact ih _ _ hcs' c hmem
    · rw [if_neg hs, Option.some_inj] at h
      subst h
      intro c hc
      simp at hc

/-- Coverage: every position of the text from `start` on is inside some chunk. -/
lemma chunkTextAux_cover (text : List Char) (target overlap : Nat) :
    ∀ fuel start cs, chunkTextAux text target overlap fuel start = some cs →
      ∀ k, start ≤ k → k < text.length → ∃ c ∈ cs, c.start ≤ k ∧ k < c.stop := by
  intro fuel
  induction fuel with
  | zero => intro start cs h; simp [chunkTextAux] at h
  | succ n ih =>
    intro start cs h k hk1 hk2
    rw [chunkTextAux] at h
    have hs : start < text.length := lt_of_le_of_lt hk1 hk2
    rw [if_pos hs] at h
    by_cases he : min (start + target) text.length = text.length
    · rw [if_pos he, Option.some_inj] at h
      subst h
      refine ⟨_, List.mem_singleton_self _, hk1, ?_⟩
      show k < min (start + target) text.length
      omega
    · rw [if_neg he, Option.map_eq_some'] at h
      rcases h with ⟨cs', hcs', rfl⟩
      by_cases hlt : k < min (start + target) text.length
      · exact ⟨_, List.mem_cons_self _ _, hk1, hlt⟩
      · have hstep : start + (target - overlap) ≤ k := by omega
        rcases ih _ _ hcs' k hstep hk2 with ⟨c, hc, h1, h2⟩
        exact ⟨c, List.mem_cons_of_mem _ hc, h1, h2⟩

/-- The first chunk emitted from state `start` (when the loop runs) starts at `start`. -/
lemma chunkTextAux_head (text : List Char) (target overlap : Nat) :
    ∀ fuel start cs, chunkTextAux text target overlap fuel start = some cs →
      start < text.length →
      ∃ c cs', cs = c :: cs' ∧ c.start = start ∧
        c.stop = min (start + target) text.length := by
  intro fuel start cs h hs
  cases fuel with
  | zero => simp [chunkTextAux] at h
  | succ n =>
    rw [chunkTextAux] at h
    rw [if_pos hs] at h
    by_cases he : min (start + target) text.length = text.length
    · rw [if_pos he, Option.some_inj] at h
      subst h
      exact ⟨_, _, rfl, rfl, rfl⟩
    · rw [if_neg he, Option.map_eq_some'] at h
      rcases h with ⟨cs', hcs', rfl⟩
      exact ⟨_, _, rfl, rfl, rfl⟩

/-- Consecutive-chunk relation: every non-final chunk is a full `target`-sized
span, the next chunk starts `target - overlap` further, so the two spans share
exactly `overlap` positions. -/
def chunkStepRel (target overlap : Nat) (c c' : Chunk) : Prop :=
  c.stop = c.start + target ∧ c'.start + overlap = c.stop ∧
    c.start ≤ c'.start ∧ c.stop < c'.stop

lemma chunkTextAux_chain (text : List Char) (target overlap : Nat)
    (h1 : overlap < target) :
    ∀ fuel start cs, chunkTextAux text target overlap fuel start = some cs →
      List.Chain' (chunkStepRel target overlap) cs := by
  intro fuel
  induction fuel with
  | zero => intro start cs h; simp [chunkTextAux] at h
  | succ n ih =>
    intro start cs h
    rw [chunkTextAux] at h
    by_cases hs : start < text.length
    · rw [if_pos hs] at h
      by_cases he : min (start + target) text.length = text.length
      · rw [if_pos he, Option.some_inj] at h
        subst h
        simp
      · rw [if_neg he, Option.map_eq_some'] at h
        rcases h with ⟨cs', hcs', rfl⟩
        have hchain := ih _ _ hcs'
        have hfull : min (start + target) text.length = start + target := by omega
        have hs' : start + (target - overlap) < text.length := by omega
        rcases chunkTextAux_head text target overlap _ _ _ hcs' hs' with
          ⟨c2, cs'', rfl, hc2s, hc2e⟩
        refine List.chain'_cons.mpr ⟨?_, hchain⟩
        refine ⟨by simp [hfull], ?_, ?_, ?_⟩
        · show c2.start + overlap = min (start + target) text.length
          rw [hc2s, hfull]; omega
        · show start ≤ c2.start
          rw [hc2s]; omega
        · show min (start + target) text.length < c2.stop
          rw [hc2e, hfull]; omega
    · rw [if_neg hs, Option.some_inj] at h
      subst h
      simp

/-- Concrete scenario: any 7000-character text chunked with target 3000 and
overlap 200 yields exactly 3 chunks with starts `[0, 2800, 5600]`.  The chunk
starts depend only on the length, so this is proved by unfolding the loop
three times symbolically. -/
lemma chunkText_len7000 (text : List Char) (hlen : text.length = 7000) :
    (chunkText text 3000 200).map Chunk.start = [0, 2800, 5600] := by
  have step3 : chunkTextAux text 3000 200 6999 5600 =
      some [⟨5600, 7000, (text.drop 5600).take 1400⟩] := by
    rw [show (6999 : Nat) = 6998 + 1 from rfl, chunkTextAux, hlen]
    norm_num
  have step2 : chunkTextAux text 3000 200 7000 2800 =
      some [⟨2800, 5800, (text.drop 2800).take 3000⟩,
            ⟨5600, 7000, (text.drop 5600).take 1400⟩] := by
    rw [show (7000 : Nat) = 6999 + 1 from rfl, chunkTextAux, hlen]
    norm_num
    exact step3
  have step1 : chunkTextAux text 3000 200 (text.length + 1) 0 =
      some [⟨0, 3000, (text.drop 0).take 3000⟩,
            ⟨2800, 5800, (text.drop 2800).take 3000⟩,
            ⟨5600, 7000, (text.drop 5600).take 1400⟩] := by
    rw [hlen, show (7000 + 1 : Nat) = 7000 + 1 from rfl, chunkTextAux, hlen]
    norm_num
    exact step2
  rw [chunkText, step1]
  rfl

/-- C1: for `targetSize > 0` and `0 ≤ overlap < targetSize` the chunk sequence
produced by `chunkText` covers `[0, len(text))` with no gaps, each chunk spans
`[start, min (start + targetSize) (len text))` carrying exactly that slice of
the text, consecutive chunks overlap by exactly `overlap` characters (the
non-final chunk is always full-sized), and any 7000-character text chunked
with `targetSize = 3000`, `overlap = 200` yields exactly the 3 starts
`[0, 2800, 5600]`. -/
theorem chunkText_coverage_overlap (text : List Char) (target overlap : Nat)
    (h0 : 0 < target) (h1 : overlap < target) :
    (∀ c ∈ chunkText text target overlap,
        c.stop = min (c.start + target) text.length ∧
        c.text = (text.drop c.start).take (c.stop - c.start) ∧
        c.start < c.stop ∧ c.stop ≤ text.length) ∧
    (∀ k, k < text.length → ∃ c ∈ chunkText text target overlap, c.start ≤ k ∧ k < c.stop) ∧
    List.Chain' (chunkStepRel target overlap) (chunkText text target overlap) ∧
    (∀ t : List Char, t.length = 7000 →
      (chunkText t 3000 200).map Chunk.start = [0, 2800, 5600]) := by
  have hsome := chunkText_eq_some text target overlap h1
  exact ⟨fun c hc => chunkTextAux_shape text target overlap h0 _ _ _ hsome c hc,
    fun k hk => chunkTextAux_cover text target overlap _ _ _ hsome k (Nat.zero_le k) hk,
    chunkTextAux_chain text target overlap h1 _ _ _ hsome,
    fun t ht => chunkText_len7000 t ht⟩

/-- Witness for `chunkText_coverage_overlap` at the spec's concrete scenario. -/
theorem chunkText_coverage_overlap_witness :
    (chunkText (List.replicate 7000 'a') 3000 200).map Chunk.start = [0, 2800, 5600] :=
  (chunkText_coverage_overlap [] 3000 200 (by decide) (by decide)).2.2.2
    (List.replicate 7000 'a') (List.length_replicate 7000 'a')

/-- C2 (behaviour at the failing input): `chunkText` performs no configuration
check at all.  On the two-character text `"ab"` with `targetSize = 1`,
`overlap = 1`, the loop advances `start` by `target - overlap = 0` forever:
for every fuel bound the loop has not finished, i.e. the source loop diverges
instead of rejecting the configuration with an `InvalidConfiguration` error. -/
theorem chunkText_diverges_on_overlap_eq_target :
    ∀ fuel, chunkTextAux ('a' :: 'b' :: []) 1 1 fuel 0 = none := by
  intro fuel
  induction fuel with
  | zero => rfl
  | succ n ih => rw [chunkTextAux]; simp [ih]

/-!
## Evidence locator (`findEvidence`, extract-manual.js lines 96-172)

JavaScript strings are `List Char`; `null`/`undefined` arguments are `none`.
The regular expressions of the source are translated into executable matchers:

  * `escapeForRegex(norm).replace(/\s+/g, "\\s+")` with flag `i` turns the
    candidate into a pattern where every non-whitespace character matches
    itself case-insensitively and every whitespace run matches one or more
    whitespace characters.  `flexMatchLen` implements exactly that semantics
    (the pattern after a whitespace run always continues with a
    non-whitespace character, so the greedy `\s+` never backtracks).
  * `/\b(provisions|warranties|obligations|not applicable|unknown)\b/i.test`
    is `hasBoundedTerm`: every alternative starts and ends with a word
    character, so the `\b` assertions amount to "previous character is not a
    word character" and "following character is not a word character".
  * `/===\s*Item\s+[\d.]+[^=]*===/gi` (section attribution) is
    `sectionMatchAt`/`lastSectionAux`: `[^=]*` cannot cross a `=`, so the
    match at a given start is deterministic; the global scan keeps the last
    match, as `sectionMatch[sectionMatch.length - 1]` does.

Case folding models the `i` flag via `Char.toLower` and `\s`/`trim` via
`Char.isWhitespace` (the texts involved are ASCII).
-/

/-- JS `\s` / `String.trim` whitespace class (ASCII fragment). -/
def isWS (c : Char) : Bool := c.isWhitespace

/-- JS `\w` word-character class `[A-Za-z0-9_]`. -/
def isWordChar (c : Char) : Bool := c.isAlphanum || c == '_'

def lcase (c : Char) : Char := c.toLower

def lowerAll (l : List Char) : List Char := l.map lcase

/-- JS `String.prototype.trim`. -/
def trimWS (l : List Char) : List Char :=
  ((l.dropWhile isWS).reverse.dropWhile isWS).reverse

/-- JS `hay.includes(needle)`: substring test. -/
def jsIncludes (hay needle : List Char) : Bool := decide (needle <:+: hay)

/-- JS `hay.indexOf(needle)`, as `none` instead of `-1`. -/
def indexOfSubstrAux (needle : List Char) : List Char → Nat → Option Nat
  | hay, i =>
    if needle.isPrefixOf hay then some i
    else
      match hay with
      | [] => none
      | _ :: t => indexOfSubstrAux needle t (i + 1)

def indexOfSubstr (hay needle : List Char) : Option Nat := indexOfSubstrAux needle hay 0

/-- Case-insensitive "pattern is a prefix of text". -/
def ciIsPrefix : List Char → List Char → Bool
  | [], _ => true
  | _ :: _, [] => false
  | p :: ps, t :: ts => (lcase p == lcase t) && ciIsPrefix ps ts

/-- JS `s.split(/\s+/)` (including its empty first/last fields when `s`
starts/ends with whitespace, and `[""]` on the empty string).  A whitespace
character whose successor is also whitespace is still inside the same
separator run, so the current field is only closed at the last character of
the run. -/
def splitWSAux : List Char → List Char → List (List Char)
  | acc, [] => [acc.reverse]
  | acc, c :: cs =>
    if isWS c then
      match cs with
      | [] => [acc.reverse, []]
      | d :: ds =>
        if isWS d then splitWSAux acc (d :: ds)
        else acc.reverse :: splitWSAux [d] ds
    else splitWSAux (c :: acc) cs

def splitWS (l : List Char) : List (List Char) := splitWSAux [] l

/-- `safe.replace(/\s+/g, "\\s+")` replaces every maximal whitespace run of
the escaped candidate by a single `\s+` token: collapse each run to its last
whitespace character. -/
def collapseWSRuns : List Char → List Char
  | [] => []
  | [c] => [c]
  | c :: d :: rest =>
    if isWS c && isWS d then collapseWSRuns (d :: rest)
    else c :: collapseWSRuns (d :: rest)

/-- Match length of the tier-3 pattern (the collapsed candidate, where a
whitespace character stands for `\s+` and any other character matches itself
case-insensitively) at the head of `text`; `none` when it does not match
here.  The greedy `\s+` never backtracks because the pattern continues with
a non-whitespace character (runs are collapsed). -/
def flexMatchLen : List Char → List Char → Option Nat
  | [], _ => some 0
  | p :: ps, text =>
    if isWS p then
      match text with
      | [] => none
      | t :: ts =>
        if isWS t then
          (flexMatchLen ps (ts.dropWhile isWS)).map
            (fun n => n + 1 + (ts.takeWhile isWS).length)
        else none
    else
      match text with
      | [] => none
      | t :: ts => if lcase p == lcase t then (flexMatchLen ps ts).map (· + 1) else none

/-- JS `chunk.text.match(re)`: leftmost match position and its length. -/
def flexFirstMatchAux (pat : List Char) : List Char → Nat → Option (Nat × Nat)
  | text, idx =>
    match flexMatchLen pat text with
    | some n => some (idx, n)
    | none =>
      match text with
      | [] => none
      | _ :: ts => flexFirstMatchAux pat ts (idx + 1)

def flexFirstMatch (pat text : List Char) : Option (Nat × Nat) := flexFirstMatchAux pat text 0

/-- One alternative of a `\b(..|..)\b` pattern matching at the head of `text`
(all alternatives used in the source start and end with word characters). -/
def wordBoundedAt (term text : List Char) : Bool :=
  ciIsPrefix term text &&
    (match text.drop term.length with
     | [] => true
     | c :: _ => !(isWordChar c))

def hasBoundedTermAux (terms : List (List Char)) : Bool → List Char → Bool
  | prevIsWord, text =>
    (!prevIsWord && terms.any (fun t => wordBoundedAt t text)) ||
      (match text with
       | [] => false
       | c :: cs => hasBoundedTermAux terms (isWordChar c) cs)

/-- JS `/\b(t1|t2|...)\b/i.test(text)`. -/
def hasBoundedTerm (terms : List (List Char)) (text : List Char) : Bool :=
  hasBoundedTermAux terms false text

/-- Match length of `/===\s*Item\s+[\d.]+[^=]*===/i` at the head of `l`. -/
def sectionMatchAt (l : List Char) : Option Nat :=
  match l with
  | '=' :: '=' :: '=' :: rest =>
    let r1 := rest.dropWhile isWS
    if ciIsPrefix ('i' :: 't' :: 'e' :: 'm' :: []) r1 then
      let r2 := r1.drop 4
      if (r2.takeWhile isWS).length = 0 then none
      else
        let r3 := r2.dropWhile isWS
        let digs := r3.takeWhile (fun c => c.isDigit || c == '.')
        if digs.length = 0 then none
        else
          let r4 := r3.drop digs.length
          let r5 := r4.dropWhile (fun c => !(c == '='))
          match r5 with
          | '=' :: '=' :: '=' :: _ => some (l.length - r5.length + 3)
          | _ => none
    else none
  | _ => none

/-- Global scan of the section pattern keeping the last match (a successful
match always has positive length, so `max n 1 = n`; the `max` only serves the
termination argument). -/
def lastSectionAux (orig : List Char) : Nat → Option (List Char) → Option (List Char)
  | i, best =>
    if h : i < orig.length then
      match sectionMatchAt (orig.drop i) with
      | some n => lastSectionAux orig (i + max n 1) (some ((orig.drop i).take n))
      | none => lastSectionAux orig (i + 1) best
    else best
termination_by i _ => orig.length - i
decreasing_by
  all_goals simp_wf
  · omega
  · omega

/-- `sourceSection` computation of tiers 3 and 4: last section marker in the
text before the match position, trimmed; `""` when there is none. -/
def sourceSectionBefore (text : List Char) (idx : Nat) : String :=
  match lastSectionAux (text.take idx) 0 none with
  | some m => String.mk (trimWS m)
  | none => ""

/-- A loaded chunk as consumed by the extractor: `{ file, text }`. -/
structure SrcChunk where
  file : String
  text : List Char
  deriving Repr, DecidableEq

/-- The slice of the ingestion manifest that `findEvidence` reads. -/
structure Manifest where
  primary_url : String
  deriving Repr, DecidableEq

/-- An evidence record as produced by `findEvidence`. -/
structure Evidence where
  sourceFile : String
  sourceUrl : String
  sourceSection : String
  selector : String
  snippet : List Char
  deriving Repr, DecidableEq

/-- The tier-2 marker snippet `"Invalid search text - no evidence found"`. -/
def markerSnippet : List Char := "Invalid search text - no evidence found".toList

/-- The boilerplate vocabulary of the tier-2 suspicious-text test. -/
def boilerplateTerms : List (List Char) :=
  ["provisions", "warranties", "obligations", "not applicable", "unknown"].map String.toList

/-- The record built both for a falsy candidate (lines 97-106) and at
exhaustion (lines 164-171); the two source blocks are identical. -/
def fallbackEvidence (chunks : List SrcChunk) (man : Manifest) : Evidence :=
  { sourceFile := (chunks.head?.map SrcChunk.file).getD "unknown"
    sourceUrl := man.primary_url
    sourceSection := ""
    selector := "chunk:" ++ (chunks.head?.map SrcChunk.file).getD "unknown"
    snippet := ((chunks.head?.map SrcChunk.text).getD []).take 200 }

/-- The tier-2 record (lines 110-116). -/
def markerEvidence (chunks : List SrcChunk) (man : Manifest) : Evidence :=
  { sourceFile := (chunks.head?.map SrcChunk.file).getD "unknown"
    sourceUrl := man.primary_url
    sourceSection := ""
    selector := "chunk:" ++ (chunks.head?.map SrcChunk.file).getD "unknown"
    snippet := markerSnippet }

/-- The tier-3 record for a match of length `mlen` at `idx` in chunk `c`
(lines 124-137): snippet window 80 characters before and after the match,
clamped to the chunk, trimmed, capped at 200 characters.  `m[0]?.length ||
norm.length` is `if mlen = 0 then norm.length else mlen`. -/
def exactEvidence (norm : List Char) (c : SrcChunk) (man : Manifest) (idx mlen : Nat) : Evidence :=
  { sourceFile := c.file
    sourceUrl := man.primary_url
    sourceSection := sourceSectionBefore c.text idx
    selector := "chunk:" ++ c.file
    snippet :=
      (trimWS ((c.text.drop (idx - 80)).take
        (min c.text.length (idx + (if mlen = 0 then norm.length else mlen) + 80) - (idx - 80)))).take 200 }

/-- Tier 3 (lines 119-139): scan the chunks in order for the first whose text
matches the whitespace-flexible pattern. -/
def exactTier (norm : List Char) (man : Manifest) : List SrcChunk → Option Evidence
  | [] => none
  | c :: rest =>
    match flexFirstMatch (collapseWSRuns norm) c.text with
    | some (idx, mlen) => some (exactEvidence norm c man idx mlen)
    | none => exactTier norm man rest

/-- The tier-4 record for chunk `c` (lines 148-160).  `idx` translates
`Math.max(0, lower.indexOf(words.find(...) || words[0].toLowerCase()))`:
the found word is looked up in its original case, and a `-1` from `indexOf`
becomes `0`. -/
def fuzzyEvidence (words : List (List Char)) (c : SrcChunk) (man : Manifest) : Evidence :=
  let lower := lowerAll c.text
  let idx :=
    match words.find? (fun w => jsIncludes lower (lowerAll w)) with
    | some w => (indexOfSubstr lower w).getD 0
    | none => (indexOfSubstr lower (lowerAll ((words.head?).getD []))).getD 0
  { sourceFile := c.file
    sourceUrl := man.primary_url
    sourceSection := sourceSectionBefore c.text idx
    selector := "chunk:" ++ c.file
    snippet :=
      (trimWS ((c.text.drop (idx - 80)).take
        (min c.text.length (idx + 200) - (idx - 80)))).take 200 }

/-- Tier 4 (lines 141-162): accept the first chunk containing at least
`min 2 (max 1 (words.length / 2))` of the first six long words. -/
def fuzzyTier (words : List (List Char)) (man : Manifest) : List SrcChunk → Option Evidence
  | [] => none
  | c :: rest =>
    let lower := lowerAll c.text
    let hits := ((words.take 6).filter (fun w => jsIncludes lower (lowerAll w))).length
    if hits ≥ min 2 (max 1 (words.length / 2)) then some (fuzzyEvidence words c man)
    else fuzzyTier words man rest

/-- Tiers 3-5 in order (everything after the tier-2 test). -/
def searchTiers (norm : List Char) (chunks : List SrcChunk) (man : Manifest) : Evidence :=
  match exactTier norm man chunks with
  | some ev => ev
  | none =>
    match fuzzyTier ((splitWS norm).filter (fun w => w.length > 3)) man chunks with
    | some ev => ev
    | none => fallbackEvidence chunks man

/-- `findEvidence(searchText, chunks, manifest)` (lines 96-172); a falsy
candidate (`null`/`undefined`/`""`) is `none` or `some []`. -/
def findEvidence (searchText : Option (List Char)) (chunks : List SrcChunk)
    (man : Manifest) : Evidence :=
  if searchText = none ∨ searchText = some [] then fallbackEvidence chunks man
  else
    let norm := trimWS (searchText.getD [])
    if hasBoundedTerm boilerplateTerms norm = true ∧ (splitWS norm).length > 8 then
      markerEvidence chunks man
    else searchTiers norm chunks man

/-!
## Validator per-field evidence check (`checkField` in the validate script)
-/

/-- An evidence row as the validator reads it from the persisted record. -/
structure EvRow where
  field : String
  sourceFile : String
  snippet : List Char
  deriving Repr, DecidableEq

/-- Body of the `for (const ev of evRows)` loop of `checkField` (validate
script lines 82-93): the chunk file must exist and must contain the trimmed
snippet; violations are collected, not thrown.  `chunkFileText` abstracts
`fs.readFileSync` over the chunk directory. -/
def checkEvRow (chunkFileText : String → Option (List Char)) (fieldPath : String)
    (ev : EvRow) : List String :=
  match chunkFileText ev.sourceFile with
  | none => ["❌ Missing chunk file: " ++ ev.sourceFile]
  | some ct =>
    if jsIncludes ct (trimWS ev.snippet) then []
    else ["❌ Evidence snippet not found in " ++ ev.sourceFile ++ " for field " ++ fieldPath]

/-- `checkField(fieldPath, value)` (validate script lines 70-94), for
primitive string-valued fields. -/
def checkField (skipFields : List String) (evidence : List EvRow)
    (chunkFileText : String → Option (List Char)) (fieldPath : String)
    (value : Option String) : List String :=
  if fieldPath ∈ skipFields then []
  else if value = none ∨ value = some "" then []
  else
    let evRows := evidence.filter (fun e => e.field == fieldPath)
    if evRows.isEmpty then ["⚠️ No evidence found for non-null field: " ++ fieldPath]
    else evRows.foldr (fun ev acc => checkEvRow chunkFileText fieldPath ev ++ acc) []

/-! ## Substring properties of the produced snippets -/

lemma trimWS_sub (l : List Char) : trimWS l <:+: l := by
  have h1 : l.dropWhile isWS <:+ l := List.dropWhile_suffix isWS
  have h2 : (l.dropWhile isWS).reverse.dropWhile isWS <:+ (l.dropWhile isWS).reverse :=
    List.dropWhile_suffix isWS
  rcases h2 with ⟨t, ht⟩
  have hpre : trimWS l <+: l.dropWhile isWS := by
    refine ⟨t.reverse, ?_⟩
    have := congrArg List.reverse ht
    simpa [trimWS] using this
  exact hpre.isInfix.trans h1.isInfix

lemma take_sub (l : List Char) (n : Nat) : l.take n <:+: l := (List.take_prefix n l).isInfix

lemma slice_sub (l : List Char) (a b : Nat) : (l.drop a).take b <:+: l :=
  (List.take_prefix b (l.drop a)).isInfix.trans (List.drop_suffix a l).isInfix

/-- The trim of a tier-3/4 snippet (`slice.trim().slice(0,200)`, trimmed again
by the validator) is a substring of the chunk text the slice came from. -/
lemma snippet_sub (l : List Char) (a b n : Nat) :
    trimWS ((trimWS ((l.drop a).take b)).take n) <:+: l :=
  ((trimWS_sub _).trans ((take_sub _ _).trans (trimWS_sub _))).trans (slice_sub l a b)

lemma jsIncludes_of_sub {hay needle : List Char} (h : needle <:+: hay) :
    jsIncludes hay needle = true := by simp [jsIncludes, h]

lemma fallbackEvidence_cons (c : SrcChunk) (rest : List SrcChunk) (man : Manifest) :
    fallbackEvidence (c :: rest) man =
      ⟨c.file, man.primary_url, "", "chunk:" ++ c.file, c.text.take 200⟩ := rfl

lemma exactTier_verbatim (norm : List Char) (man : Manifest) :
    ∀ chunks ev, exactTier norm man chunks = some ev →
      ∃ c ∈ chunks, ev.sourceFile = c.file ∧
        jsIncludes c.text (trimWS ev.snippet) = true := by
  intro chunks
  induction chunks with
  | nil => intro ev h; simp [exactTier] at h
  | cons c rest ih =>
    intro ev h
    rw [exactTier] at h
    cases hm : flexFirstMatch (collapseWSRuns norm) c.text with
    | some p =>
      obtain ⟨idx, mlen⟩ := p
      rw [hm, Option.some_inj] at h
      subst h
      refine ⟨c, List.mem_cons_self _ _, rfl, ?_⟩
      exact jsIncludes_of_sub (snippet_sub _ _ _ _)
    | none =>
      rw [hm] at h
      rcases ih ev h with ⟨c', hc', h1, h2⟩
      exact ⟨c', List.mem_cons_of_mem _ hc', h1, h2⟩

lemma fuzzyTier_verbatim (words : List (List Char)) (man : Manifest) :
    ∀ chunks ev, fuzzyTier words man chunks = some ev →
      ∃ c ∈ chunks, ev.sourceFile = c.file ∧
        jsIncludes c.text (trimWS ev.snippet) = true := by
  intro chunks
  induction chunks with
  | nil => intro ev h; simp [fuzzyTier] at h
  | cons c rest ih =>
    intro ev h
    rw [fuzzyTier] at h
    split at h
    · rw [Option.some_inj] at h
      subst h
      refine ⟨c, List.mem_cons_self _ _, rfl, ?_⟩
      exact jsIncludes_of_sub (snippet_sub _ _ _ _)
    · rcases ih ev h with ⟨c', hc', h1, h2⟩
      exact ⟨c', List.mem_cons_of_mem _ hc', h1, h2⟩

lemma searchTiers_verbatim (norm : List Char) (chunks : List SrcChunk) (man : Manifest)
    (hne : chunks ≠ []) :
    ∃ c ∈ chunks, (searchTiers norm chunks man).sourceFile = c.file ∧
      jsIncludes c.text (trimWS (searchTiers norm chunks man).snippet) = true := by
  rcases List.exists_cons_of_ne_nil hne with ⟨c, rest, rfl⟩
  unfold searchTiers
  cases he : exactTier norm man (c :: rest) with
  | some ev => exact exactTier_verbatim norm man _ ev he
  | none =>
    cases hf : fuzzyTier ((splitWS norm).filter (fun w => w.length > 3)) man (c :: rest) with
    | some ev => exact fuzzyTier_verbatim _ man _ ev hf
    | none =>
      rw [fallbackEvidence_cons]
      exact ⟨c, List.mem_cons_self _ _, rfl,
        jsIncludes_of_sub ((trimWS_sub _).trans (take_sub _ _))⟩

/-- C3: every evidence record produced by `findEvidence` whose snippet is not
the placeholder marker cites a chunk of the list whose text contains the
trimmed snippet, and the validator's per-row check accepts a record (adds no
error) exactly when the cited chunk's text contains the trimmed snippet. -/
theorem findEvidence_verbatim (st : Option (List Char)) (chunks : List SrcChunk)
    (man : Manifest) (hne : chunks ≠ [])
    (hsn : (findEvidence st chunks man).snippet ≠ markerSnippet) :
    (∃ c ∈ chunks, (findEvidence st chunks man).sourceFile = c.file ∧
        jsIncludes c.text (trimWS (findEvidence st chunks man).snippet) = true) ∧
    (∀ (lookup : String → Option (List Char)) (fieldPath : String) (ev : EvRow)
        (ct : List Char), lookup ev.sourceFile = some ct →
        (checkEvRow lookup fieldPath ev = [] ↔ jsIncludes ct (trimWS ev.snippet) = true)) := by
  constructor
  · by_cases hf : st = none ∨ st = some []
    · rw [findEvidence, if_pos hf]
      rcases List.exists_cons_of_ne_nil hne with ⟨c, rest, rfl⟩
      rw [fallbackEvidence_cons]
      exact ⟨c, List.mem_cons_self _ _, rfl,
        jsIncludes_of_sub ((trimWS_sub _).trans (take_sub _ _))⟩
    · rw [findEvidence, if_neg hf] at hsn ⊢
      by_cases hcond : hasBoundedTerm boilerplateTerms (trimWS (st.getD [])) = true ∧
          (splitWS (trimWS (st.getD []))).length > 8
      · rw [if_pos hcond] at hsn
        exact absurd rfl hsn
      · rw [if_neg hcond]
        exact searchTiers_verbatim _ _ man hne
  · intro lookup fieldPath ev ct hct
    rw [checkEvRow, hct]
    by_cases hin : jsIncludes ct (trimWS ev.snippet) = true
    · simp [hin]
    · simp [hin]

/-- Witness for `findEvidence_verbatim` on a concrete chunk list. -/
theorem findEvidence_verbatim_witness :
    (let chunks : List SrcChunk := [⟨"chunk_0001.txt", "Acme Corp filed a report.".toList⟩]
     chunks ≠ [] ∧
      (findEvidence none chunks ⟨"u"⟩).snippet ≠ markerSnippet ∧
      ∃ c ∈ chunks, (findEvidence none chunks ⟨"u"⟩).sourceFile = c.file ∧
        jsIncludes c.text (trimWS (findEvidence none chunks ⟨"u"⟩).snippet) = true) :=
  ⟨by decide, by decide,
    (findEvidence_verbatim none _ ⟨"u"⟩ (by decide) (by decide)).1⟩

/-- C4: a falsy candidate (`null` or the empty string) with a non-empty chunk
list yields the placeholder record citing the first chunk, whose snippet is
the first 200 characters of that chunk's text. -/
theorem findEvidence_null_or_empty (st : Option (List Char)) (c : SrcChunk)
    (rest : List SrcChunk) (man : Manifest)
    (hf : st = none ∨ st = some []) :
    findEvidence st (c :: rest) man =
      ⟨c.file, man.primary_url, "", "chunk:" ++ c.file, c.text.take 200⟩ := by
  rw [findEvidence, if_pos hf, fallbackEvidence_cons]

/-- Witness for `findEvidence_null_or_empty`. -/
theorem findEvidence_null_or_empty_witness :
    ((some [] : Option (List Char)) = none ∨ (some [] : Option (List Char)) = some []) ∧
    findEvidence (some []) [⟨"chunk_0001.txt", "Acme Corp filed a report.".toList⟩] ⟨"u"⟩ =
      ⟨"chunk_0001.txt", "u", "", "chunk:chunk_0001.txt",
        "Acme Corp filed a report.".toList.take 200⟩ :=
  ⟨Or.inr rfl,
    findEvidence_null_or_empty (some [])
      ⟨"chunk_0001.txt", "Acme Corp filed a report.".toList⟩ [] ⟨"u"⟩ (Or.inr rfl)⟩

/-- C5: a truthy candidate with more than 8 whitespace-separated words that
contains a boilerplate term as a whole word short-circuits to the marker
record without searching any chunk text; otherwise tier 2 falls through to
the search tiers. -/
theorem findEvidence_suspicious_tier (s : List Char) (chunks : List SrcChunk)
    (man : Manifest) (hne : s ≠ []) :
    (hasBoundedTerm boilerplateTerms (trimWS s) = true ∧ (splitWS (trimWS s)).length > 8 →
      findEvidence (some s) chunks man = markerEvidence chunks man) ∧
    (¬(hasBoundedTerm boilerplateTerms (trimWS s) = true ∧
        (splitWS (trimWS s)).length > 8) →
      findEvidence (some s) chunks man = searchTiers (trimWS s) chunks man) := by
  have hf : ¬((some s : Option (List Char)) = none ∨ (some s : Option (List Char)) = some []) := by
    simp [hne]
  constructor
  · intro hcond
    rw [findEvidence, if_neg hf]
    simp only [Option.getD_some]
    rw [if_pos hcond]
  · intro hcond
    rw [findEvidence, if_neg hf]
    simp only [Option.getD_some]
    rw [if_neg hcond]

/-- Witness for `findEvidence_suspicious_tier`: 9 words containing
"provisions". -/
theorem findEvidence_suspicious_tier_witness :
    (let s := "provisions one two three four five six seven eight".toList
     s ≠ [] ∧
      (hasBoundedTerm boilerplateTerms (trimWS s) = true ∧ (splitWS (trimWS s)).length > 8) ∧
      findEvidence (some s) [⟨"chunk_0001.txt", "text".toList⟩] ⟨"u"⟩ =
        markerEvidence [⟨"chunk_0001.txt", "text".toList⟩] ⟨"u"⟩) :=
  ⟨by decide, by decide,
    (findEvidence_suspicious_tier _ _ ⟨"u"⟩ (by decide)).1 (by decide)⟩

lemma searchTiers_nil (norm : List Char) (man : Manifest) :
    searchTiers norm [] man = fallbackEvidence [] man := rfl

/-- C10 (amended): `findEvidence` is total on an empty chunk list and returns
a record with `sourceFile = "unknown"` and empty `sourceSection`; its snippet
is empty unless the tier-2 suspicious-text rejection fires, in which case it
is the marker string. -/
theorem findEvidence_empty_chunk_list (st : Option (List Char)) (man : Manifest) :
    (findEvidence st [] man).sourceFile = "unknown" ∧
    (findEvidence st [] man).sourceSection = "" ∧
    ((findEvidence st [] man).snippet = [] ∨
      (findEvidence st [] man).snippet = markerSnippet) ∧
    ((findEvidence st [] man).snippet = markerSnippet ↔
      ∃ s, st = some s ∧ s ≠ [] ∧ hasBoundedTerm boilerplateTerms (trimWS s) = true ∧
        (splitWS (trimWS s)).length > 8) := by
  by_cases hf : st = none ∨ st = some []
  · rw [findEvidence, if_pos hf]
    refine ⟨rfl, rfl, Or.inl rfl, ?_⟩
    constructor
    · intro h
      rw [show (fallbackEvidence [] man).snippet = [] from rfl] at h
      exact absurd h (by decide)
    · rintro ⟨s, hst, hne, -, -⟩
      rcases hf with h | h
      · rw [h] at hst; exact absurd hst (by simp)
      · rw [h, Option.some_inj] at hst
        exact absurd hst.symm hne
  · have hst : ∃ s, st = some s ∧ s ≠ [] := by
      cases st with
      | none => exact absurd (Or.inl rfl) hf
      | some s =>
        refine ⟨s, rfl, ?_⟩
        intro h
        exact hf (Or.inr (by rw [h]))
    rcases hst with ⟨s, rfl, hne⟩
    rw [findEvidence, if_neg hf]
    simp only [Option.getD_some]
    by_cases hcond : hasBoundedTerm boilerplateTerms (trimWS s) = true ∧
        (splitWS (trimWS s)).length > 8
    · rw [if_pos hcond]
      refine ⟨rfl, rfl, Or.inr rfl, ?_⟩
      constructor
      · intro _; exact ⟨s, rfl, hne, hcond.1, hcond.2⟩
      · intro _; rfl
    · rw [if_neg hcond, searchTiers_nil]
      refine ⟨rfl, rfl, Or.inl rfl, ?_⟩
      constructor
      · intro h
        rw [show (fallbackEvidence [] man).snippet = [] from rfl] at h
        exact absurd h (by decide)
      · rintro ⟨s', hs', -, h1, h2⟩
        rw [Option.some_inj] at hs'
        subst hs'
        exact absurd ⟨h1, h2⟩ hcond

/-- C10 counterexample to the claim as stated: with an empty chunk list and a
suspicious candidate the snippet is the marker string, not empty. -/
theorem findEvidence_empty_chunk_list_cex :
    (findEvidence (some ("provisions one two three four five six seven eight".toList))
      [] ⟨""⟩).snippet ≠ [] := by
  decide

/-!
## Relationship classification and partnership assembly
(`run` in extract-manual.js, lines 380-394, 547-561, 684-685)
-/

/-- The partnership keyword vocabulary of line 380. -/
def partnershipTerms : List (List Char) :=
  ["collaboration", "collaborat", "license agreement", "strategic collaboration",
    "partnership", "partner"].map String.toList

/-- The deal keyword vocabulary of line 381. -/
def dealTerms : List (List Char) :=
  ["merger", "acquisition", "acquired", "acquires", "purchase agreement",
    "purchase of"].map String.toList

/-- `isPartnership` (line 380). -/
def isPartnershipWindow (cw : List Char) : Bool := hasBoundedTerm partnershipTerms cw

/-- `isDeal` (line 381). -/
def isDealWindow (cw : List Char) : Bool := hasBoundedTerm dealTerms cw

/-- Which branch of `if (isPartnership) { ... } else if (isDeal) { ... }`
(lines 394/551) runs for a given context window. -/
inductive RelBranch
  | partnershipB
  | dealB
  | neitherB
  deriving Repr, DecidableEq

def relationshipBranch (cw : List Char) : RelBranch :=
  if isPartnershipWindow cw then RelBranch.partnershipB
  else if isDealWindow cw then RelBranch.dealB
  else RelBranch.neitherB

/-- Whether the output record carries a `deal` sub-record.  The source builds
`deal = {}` exactly in the deal branch and `if (deal) output.deal = deal`
(line 685) keeps it whenever that branch ran (`{}` is truthy in JS). -/
def hasDealSubRecord (cw : List Char) : Bool :=
  match relationshipBranch cw with
  | RelBranch.dealB => true
  | _ => false

/-- The partnership sub-record being assembled; every field is set only by a
successful pattern, hence optional. -/
structure Partnership where
  partnerA : Option String := none
  partnerB : Option String := none
  scope : Option String := none
  territory : Option String := none
  upfrontPaymentUSD : Option Nat := none
  milestonesUSD : Option Nat := none
  deriving Repr, DecidableEq

/-- JS truthiness of a nullable string property. -/
def jsTruthyOptStr : Option String → Bool
  | none => false
  | some s => !(s == "")

/-- Lines 547-550: `if (!partnership.partnerA || !partnership.partnerB)
partnership = null`. -/
def finalizePartnership (built : Partnership) : Option Partnership :=
  if !(jsTruthyOptStr built.partnerA) || !(jsTruthyOptStr built.partnerB) then none
  else some built

/-- The partnership sub-record the output carries: only the partnership
branch builds one, and it survives the line 547-550 guard (line 684:
`if (partnership) output.partnership = partnership`). -/
def outputPartnership (cw : List Char) (built : Partnership) : Option Partnership :=
  match relationshipBranch cw with
  | RelBranch.partnershipB => finalizePartnership built
  | _ => none

lemma jsTruthyOptStr_ne_none {o : Option String} (h : jsTruthyOptStr o = true) :
    o ≠ none := by
  cases o with
  | none => simp [jsTruthyOptStr] at h
  | some s => simp

/-- C6: if the output record has a partnership sub-record then both partners
are present (truthy, and in particular non-null); whenever either party is
unresolved the whole sub-record is discarded. -/
theorem partnership_atomicity (cw : List Char) (built p : Partnership) :
    (outputPartnership cw built = some p →
      p.partnerA ≠ none ∧ p.partnerB ≠ none ∧
      jsTruthyOptStr p.partnerA = true ∧ jsTruthyOptStr p.partnerB = true) ∧
    (jsTruthyOptStr built.partnerA = false ∨ jsTruthyOptStr built.partnerB = false →
      outputPartnership cw built = none) := by
  constructor
  · intro h
    cases hb : relationshipBranch cw
    case partnershipB =>
      simp only [outputPartnership, hb] at h
      unfold finalizePartnership at h
      by_cases hcond : (!jsTruthyOptStr built.partnerA || !jsTruthyOptStr built.partnerB) = true
      · rw [if_pos hcond] at h
        exact absurd h (by simp)
      · rw [if_neg hcond] at h
        rw [Option.some_inj] at h
        subst h
        have ha : jsTruthyOptStr built.partnerA = true := by
          rcases Bool.eq_false_or_eq_true (jsTruthyOptStr built.partnerA) with h' | h'
          · exact h'
          · exact absurd (by simp [h']) hcond
        have hb' : jsTruthyOptStr built.partnerB = true := by
          rcases Bool.eq_false_or_eq_true (jsTruthyOptStr built.partnerB) with h' | h'
          · exact h'
          · exact absurd (by simp [h']) hcond
        exact ⟨jsTruthyOptStr_ne_none ha, jsTruthyOptStr_ne_none hb', ha, hb'⟩
    case dealB =>
      simp only [outputPartnership, hb] at h
      exact absurd h (by simp)
    case neitherB =>
      simp only [outputPartnership, hb] at h
      exact absurd h (by simp)
  · intro h
    have hcond : (!jsTruthyOptStr built.partnerA || !jsTruthyOptStr built.partnerB) = true := by
      rcases h with h | h <;> simp [h]
    cases hb : relationshipBranch cw <;>
      simp [outputPartnership, hb, finalizePartnership, hcond]

/-- Witness for `partnership_atomicity` at a concrete window and record. -/
theorem partnership_atomicity_witness :
    outputPartnership "partnership".toList
        { partnerA := some "Acme Inc.", partnerB := some "Roche" } =
      some { partnerA := some "Acme Inc.", partnerB := some "Roche" } ∧
    ((some "Acme Inc." : Option String) ≠ none ∧ (some "Roche" : Option String) ≠ none ∧
      jsTruthyOptStr (some "Acme Inc.") = true ∧ jsTruthyOptStr (some "Roche") = true) :=
  ⟨by decide,
    (partnership_atomicity "partnership".toList
      { partnerA := some "Acme Inc.", partnerB := some "Roche" }
      { partnerA := some "Acme Inc.", partnerB := some "Roche" }).1 (by decide)⟩

/-- C7: a context window matching both the partnership and the deal
vocabulary takes the partnership branch, and no deal sub-record is built:
partnership classification strictly precedes deal classification. -/
theorem partnership_precedes_deal (cw : List Char)
    (hp : isPartnershipWindow cw = true) (hd : isDealWindow cw = true) :
    relationshipBranch cw = RelBranch.partnershipB ∧ hasDealSubRecord cw = false := by
  have hbr : relationshipBranch cw = RelBranch.partnershipB := by
    rw [relationshipBranch, if_pos hp]
  refine ⟨hbr, ?_⟩
  rw [hasDealSubRecord, hbr]

/-- Witness for `partnership_precedes_deal`: a window containing both
"partnership" and "merger". -/
theorem partnership_precedes_deal_witness :
    (isPartnershipWindow "partnership merger".toList = true ∧
      isDealWindow "partnership merger".toList = true) ∧
    relationshipBranch "partnership merger".toList = RelBranch.partnershipB ∧
    hasDealSubRecord "partnership merger".toList = false :=
  ⟨⟨by decide, by decide⟩,
    partnership_precedes_deal "partnership merger".toList (by decide) (by decide)⟩

/-!
## Monetary parsing (`parseMoneyToUSD`, lines 79-90) and the upfront /
milestone extraction of the partnership branch (lines 524-545)

`parseFloat` and the scale multiplication are modelled with exact decimal
arithmetic: the parsed number is `mantissa / 10^fracLen` and
`Math.round(x) = ⌊x + 1/2⌋`, so the result is
`(2 * mantissa * mult + den) / (2 * den)` in natural numbers (all inputs the
pipeline feeds here are non-negative; at each value below the IEEE-double
computation of the source yields the same integer).
-/

def natOfDigits (l : List Char) : Nat := l.foldl (fun a c => a * 10 + (c.toNat - 48)) 0

/-- `\s*([0-9]+(?:\.[0-9]+)?)`: number group `m[1]` and the rest of the
input; `none` when no digits are found here. -/
def numPartAt (l : List Char) : Option (List Char × List Char) :=
  let l1 := l.dropWhile isWS
  let ds := l1.takeWhile Char.isDigit
  if ds.isEmpty then none
  else
    let r := l1.drop ds.length
    match r with
    | '.' :: r2 =>
      let fs := r2.takeWhile Char.isDigit
      if fs.isEmpty then some (ds, r)
      else some (ds ++ '.' :: fs, r2.drop fs.length)
    | _ => some (ds, r)

/-- `(?:\s*(thousand|million|billion))?`, returning the lowercased scale word
(`(m[2] || "").toLowerCase()`). -/
def scaleWordAt (l : List Char) : Option String :=
  let l1 := l.dropWhile isWS
  if ciIsPrefix "thousand".toList l1 then some "thousand"
  else if ciIsPrefix "million".toList l1 then some "million"
  else if ciIsPrefix "billion".toList l1 then some "billion"
  else none

/-- The money regex `(?:\$|USD\s*)?\s*([0-9]+(?:\.[0-9]+)?)(?:\s*(thousand|million|billion))?`
at the head of `l`: prefix alternatives tried in order `$`, `USD\s*`, empty. -/
def moneyMatchAt (l : List Char) : Option (List Char × Option String) :=
  let viaDollar : Option (List Char × List Char) :=
    match l with
    | '$' :: r => numPartAt r
    | _ => none
  let viaUSD : Option (List Char × List Char) :=
    if ciIsPrefix "usd".toList l then numPartAt ((l.drop 3).dropWhile isWS) else none
  match viaDollar <|> viaUSD <|> numPartAt l with
  | none => none
  | some (numStr, rest) => some (numStr, scaleWordAt rest)

/-- Leftmost match of the money regex. -/
def moneyFirstMatchAux : List Char → Option (List Char × Option String)
  | [] => moneyMatchAt []
  | c :: t =>
    match moneyMatchAt (c :: t) with
    | some r => some r
    | none => moneyFirstMatchAux t

/-- `parseMoneyToUSD(text)` (lines 79-90): strip parentheses and grouping
commas, trim, match the money regex, scale by thousand/million/billion and
round to the nearest integer. -/
def parseMoneyToUSD (text : List Char) : Option Nat :=
  if text.isEmpty then none
  else
    let cleaned := trimWS (text.filter (fun c => !(c == '(' || c == ')' || c == ',')))
    match moneyFirstMatchAux cleaned with
    | none => none
    | some (numStr, scale) =>
      let intPart := numStr.takeWhile Char.isDigit
      let frac :=
        match numStr.drop intPart.length with
        | '.' :: fs => fs
        | _ => []
      let mantissa := natOfDigits (intPart ++ frac)
      let den := 10 ^ frac.length
      let mult : Nat :=
        match scale with
        | some "thousand" => 1000
        | some "million" => 1000000
        | some "billion" => 1000000000
        | _ => 1
      some ((2 * mantissa * mult + den) / (2 * den))

/-- Consume a literal case-insensitively. -/
def eatCI (lit : String) (l : List Char) : Option (List Char) :=
  if ciIsPrefix lit.toList l then some (l.drop lit.toList.length) else none

/-- Consume `\s+` (at least one whitespace character; greedy — every use in
the source patterns is followed by a non-whitespace literal). -/
def eatWS1 (l : List Char) : Option (List Char) :=
  match l with
  | c :: _ => if isWS c then some (l.dropWhile isWS) else none
  | [] => none

/-- Split an optional `\.[0-9]+` fraction off the input. -/
def fracSplit (l : List Char) : List Char × List Char :=
  match l with
  | '.' :: rr =>
    let fs := rr.takeWhile Char.isDigit
    if fs.isEmpty then ([], l) else ('.' :: fs, rr.drop fs.length)
  | _ => ([], l)

/-- The optional `(?:\s*(?:w1|w2|...))?` tail of a captured amount:
the whitespace plus the scale word when one follows, else nothing. -/
def scaleSuffix (scales : List String) (l : List Char) : List Char :=
  let ws := l.takeWhile isWS
  let r := l.drop ws.length
  match scales.find? (fun w => ciIsPrefix w.toList r) with
  | some w => ws ++ r.take w.toList.length
  | none => []

/-- The captured group `\$[0-9,]+(?:\.[0-9]+)?(?:\s*(?:...))?` at the head of
`l`. -/
def dollarCapture (scales : List String) (l : List Char) : Option (List Char) :=
  match l with
  | '$' :: r =>
    let ds := r.takeWhile (fun c => c.isDigit || c == ',')
    if ds.isEmpty then none
    else
      let r2 := r.drop ds.length
      let fr := fracSplit r2
      some ('$' :: ds ++ fr.1 ++ scaleSuffix scales fr.2)
  | _ => none

/-- `upfront\s+(?:cash\s+)?payment\s+(?:of\s+)?(\$[0-9,]+(?:\.[0-9]+)?(?:\s*(?:million|billion|thousand))?)`
(line 524) at the head of `l`, returning the captured amount. -/
def upfrontCaptureAt (l : List Char) : Option (List Char) := do
  let r1 ← eatCI "upfront" l
  let r2 ← eatWS1 r1
  let r3 ← (do
      let a ← eatCI "cash" r2
      let b ← eatWS1 a
      eatCI "payment" b) <|> eatCI "payment" r2
  let r4 ← eatWS1 r3
  let r5 := ((do
      let a ← eatCI "of" r4
      eatWS1 a) : Option (List Char)).getD r4
  dollarCapture ["million", "billion", "thousand"] r5

/-- First milestone pattern `(?:up to|total of|potentially)\s+(\$...)`
(line 532). -/
def milestoneP1At (l : List Char) : Option (List Char) := do
  let r1 ← eatCI "up to" l <|> eatCI "total of" l <|> eatCI "potentially" l
  let r2 ← eatWS1 r1
  dollarCapture ["billion", "million"] r2

/-- Second milestone pattern `milestone\s+payments?\s+(?:of|up to)\s+(\$...)`
(line 533). -/
def milestoneP2At (l : List Char) : Option (List Char) := do
  let r1 ← eatCI "milestone" l
  let r2 ← eatWS1 r1
  let r3 ← eatCI "payment" r2
  let r4 := (eatCI "s" r3).getD r3
  let r5 ← eatWS1 r4
  let r6 ← eatCI "of" r5 <|> eatCI "up to" r5
  let r7 ← eatWS1 r6
  dollarCapture ["million", "billion"] r7

/-- Leftmost match of a capture pattern over the context window. -/
def firstCaptureAux (patAt : List Char → Option (List Char)) : List Char → Option (List Char)
  | [] => patAt []
  | c :: t =>
    match patAt (c :: t) with
    | some cap => some cap
    | none => firstCaptureAux patAt t

/-- `partnership.upfrontPaymentUSD` (lines 524-528). -/
def upfrontFromWindow (cw : List Char) : Option Nat :=
  match firstCaptureAux upfrontCaptureAt cw with
  | some cap => parseMoneyToUSD cap
  | none => none

/-- One iteration of the milestone-pattern loop (lines 535-545): the amount
is kept only when it is truthy and exceeds `upfrontPaymentUSD || 0`. -/
def milestoneTry (patAt : List Char → Option (List Char)) (cw : List Char)
    (upfront : Option Nat) : Option Nat :=
  match firstCaptureAux patAt cw with
  | some cap =>
    match parseMoneyToUSD cap with
    | some amt => if amt ≠ 0 ∧ amt > upfront.getD 0 then some amt else none
    | none => none
  | none => none

/-- `partnership.milestonesUSD` (lines 530-545): the two patterns in order,
first successful one wins. -/
def milestoneFromWindow (cw : List Char) (upfront : Option Nat) : Option Nat :=
  match milestoneTry milestoneP1At cw upfront with
  | some amt => some amt
  | none => milestoneTry milestoneP2At cw upfront

/-- C8: `parseMoneyToUSD` strips grouping commas and parentheses, accepts an
optional `$`/`USD` marker, scales by thousand/million/billion and rounds to
the nearest integer; and a context window with "$500,000" in an
"upfront payment of" pattern and "$1.2 billion" in a "milestone payments of"
pattern yields `upfrontPaymentUSD = 500000` and
`milestonesUSD = 1200000000`. -/
theorem parseMoney_and_payment_extraction :
    parseMoneyToUSD "(1,234,567)".toList = some 1234567 ∧
    parseMoneyToUSD "$2 thousand".toList = some 2000 ∧
    parseMoneyToUSD "USD 3 million".toList = some 3000000 ∧
    parseMoneyToUSD "$1.2 billion".toList = some 1200000000 ∧
    parseMoneyToUSD "2.4".toList = some 2 ∧
    parseMoneyToUSD "2.6".toList = some 3 ∧
    upfrontFromWindow ("The Company will receive an upfront payment of $500,000 and milestone payments of $1.2 billion over the term.".toList) = some 500000 ∧
    milestoneFromWindow ("The Company will receive an upfront payment of $500,000 and milestone payments of $1.2 billion over the term.".toList) (some 500000) = some 1200000000 := by
  decide

/-!
## Cross-field validation (`run`, lines 657-674)

`new Date(iso)` on the ISO dates produced by `parseDateToISO` is strictly
monotone in the (year, month, day) triple, so the `effDate > filedDate`
comparison of line 671 is modelled by comparing the order-isomorphic key
`y * 10000 + m * 100 + d`; a string that does not parse gives `NaN`, every
comparison with which is false.  The bounds check mirrors the ISO date
grammar accepted by `Date` (calendar day-in-month validation is irrelevant
here: the extractor only feeds calendar-valid dates). -/

def parseISODate (s : String) : Option (Nat × Nat × Nat) :=
  match s.toList with
  | [y1, y2, y3, y4, '-', m1, m2, '-', d1, d2] =>
    if y1.isDigit && y2.isDigit && y3.isDigit && y4.isDigit &&
        m1.isDigit && m2.isDigit && d1.isDigit && d2.isDigit then
      let y := natOfDigits [y1, y2, y3, y4]
      let m := natOfDigits [m1, m2]
      let d := natOfDigits [d1, d2]
      if 1 ≤ m ∧ m ≤ 12 ∧ 1 ≤ d ∧ d ≤ 31 then some (y, m, d) else none
    else none
  | _ => none

def dateKey : Nat × Nat × Nat → Nat
  | (y, m, d) => y * 10000 + m * 100 + d

/-- `new Date(a) > new Date(b)` for the ISO strings of the record. -/
def jsDateAfterISO (a b : String) : Bool :=
  match parseISODate a, parseISODate b with
  | some ka, some kb => decide (dateKey ka > dateKey kb)
  | _, _ => false

def dateIssueMsg : String :=
  "event.effectiveDate is after doc.filedDate (should be earlier or same)"

/-- The `crossField` issue list built by lines 657-674, as a function of the
record fields it reads (`hasItem101` and `hasAgreement` stand for the results
of the two regex tests of line 662). -/
def crossFieldIssues (tv : Option Int) (kind : Option String)
    (hasItem101 hasAgreement : Bool) (eff filed : Option String) : List String :=
  (match tv with
   | some v => if v ≤ 0 then ["event.totalValueUSD is non-positive"] else []
   | none => []) ++
  (if kind = some "Collaboration" then
    (if !hasItem101 && !hasAgreement then
      ["Collaboration found but no Item 1.01/agreement mention detected"] else [])
   else []) ++
  (match eff, filed with
   | some e, some f =>
     if e ≠ "" ∧ f ≠ "" then (if jsDateAfterISO e f then [dateIssueMsg] else []) else []
   | _, _ => [])

lemma dateIssueMsg_notin_tv (tv : Option Int) :
    dateIssueMsg ∉ (match tv with
      | some v => if v ≤ 0 then ["event.totalValueUSD is non-positive"] else []
      | none => ([] : List String)) := by
  cases tv with
  | none => simp
  | some v =>
    show dateIssueMsg ∉ (if v ≤ 0 then ["event.totalValueUSD is non-positive"] else [])
    by_cases hv : v ≤ 0
    · rw [if_pos hv]
      intro hmem
      simp only [List.mem_singleton] at hmem
      exact absurd hmem (by decide)
    · rw [if_neg hv]; simp

lemma dateIssueMsg_notin_collab (kind : Option String) (h1 h2 : Bool) :
    dateIssueMsg ∉ (if kind = some "Collaboration" then
      (if !h1 && !h2 then
        ["Collaboration found but no Item 1.01/agreement mention detected"] else [])
     else ([] : List String)) := by
  by_cases hk : kind = some "Collaboration"
  · rw [if_pos hk]
    by_cases hb : (!h1 && !h2) = true
    · rw [if_pos hb]
      intro hmem
      simp only [List.mem_singleton] at hmem
      exact absurd hmem (by decide)
    · rw [if_neg hb]; simp
  · rw [if_neg hk]; simp

lemma dateIssueMsg_mem_crossField_iff (tv : Option Int) (kind : Option String)
    (h1 h2 : Bool) (e f : String) :
    dateIssueMsg ∈ crossFieldIssues tv kind h1 h2 (some e) (some f) ↔
      (e ≠ "" ∧ f ≠ "" ∧ jsDateAfterISO e f = true) := by
  unfold crossFieldIssues
  rw [show (match (some e : Option String), (some f : Option String) with
      | some e', some f' =>
        if e' ≠ "" ∧ f' ≠ "" then (if jsDateAfterISO e' f' then [dateIssueMsg] else []) else []
      | _, _ => ([] : List String)) =
      (if e ≠ "" ∧ f ≠ "" then (if jsDateAfterISO e f then [dateIssueMsg] else []) else [])
    from rfl]
  rw [List.mem_append, List.mem_append]
  constructor
  · rintro ((hm | hm) | hm)
    · exact absurd hm (dateIssueMsg_notin_tv tv)
    · exact absurd hm (dateIssueMsg_notin_collab kind h1 h2)
    · by_cases hc : e ≠ "" ∧ f ≠ ""
      · rw [if_pos hc] at hm
        by_cases hd : jsDateAfterISO e f = true
        · exact ⟨hc.1, hc.2, hd⟩
        · rw [if_neg hd] at hm
          simp at hm
      · rw [if_neg hc] at hm
        simp at hm
  · rintro ⟨he, hf, hd⟩
    right
    rw [if_pos ⟨he, hf⟩, if_pos hd]
    simp

/-- C9: with both dates present, the cross-field issue list contains the
"effective date after filed date" entry exactly when the effective date is
chronologically after the filed date, and `effectiveDate = "2023-08-01"` with
`filedDate = "2023-07-26"` produces the issue. -/
theorem crossField_effective_after_filed (tv : Option Int) (kind : Option String)
    (h1 h2 : Bool) (e f : String) (ye me de yf mf df : Nat)
    (hpe : parseISODate e = some (ye, me, de))
    (hpf : parseISODate f = some (yf, mf, df)) :
    (dateIssueMsg ∈ crossFieldIssues tv kind h1 h2 (some e) (some f) ↔
      dateKey (ye, me, de) > dateKey (yf, mf, df)) ∧
    dateIssueMsg ∈ crossFieldIssues none none true true
      (some "2023-08-01") (some "2023-07-26") := by
  have hnil : parseISODate "" = none := by decide
  have hne1 : e ≠ "" := by
    intro h
    rw [h, hnil] at hpe
    exact Option.noConfusion hpe
  have hne2 : f ≠ "" := by
    intro h
    rw [h, hnil] at hpf
    exact Option.noConfusion hpf
  constructor
  · rw [dateIssueMsg_mem_crossField_iff]
    unfold jsDateAfterISO
    rw [hpe, hpf]
    simp [hne1, hne2]
  · rw [dateIssueMsg_mem_crossField_iff]
    exact ⟨by decide, by decide, by decide⟩

/-- Witness for `crossField_effective_after_filed` at the spec's concrete
scenario. -/
theorem crossField_effective_after_filed_witness :
    parseISODate "2023-08-01" = some (2023, 8, 1) ∧
    parseISODate "2023-07-26" = some (2023, 7, 26) ∧
    dateIssueMsg ∈ crossFieldIssues none none true true
      (some "2023-08-01") (some "2023-07-26") :=
  ⟨by decide, by decide,
    (crossField_effective_after_filed none none true true "2023-08-01" "2023-07-26"
      2023 8 1 2023 7 26 (by decide) (by decide)).2⟩
